import Mathlib

/-!
Verification of the reactive cell-execution core of the marimo notebook
library: the data model of cells (refs/defs/coroutine flag), the dependency
graph over producing cells, the override-validating execution engine
(`App.run`), transitive coroutine propagation, and the direct-call
convenience form.  The execution engine itself is not part of the source
tree available here (only its test suite is), so its definitions are
modelled from the specification, with the behaviour pinned down by the
repository's tests (`tests/_ast/test_cell.py`); each such definition says
so in its doc comment.  The concrete cells and apps below are transcribed
from the test suite.
-/

/-- Variable names are strings. -/
abbrev Name := String

/-- Runtime values flowing between cells.  `vset` models a Python set of
integers (an unhashable container), `obj` an opaque object such as an
imported module, used only as an inert token. -/
inductive Value where
  | int (n : Int)
  | str (s : String)
  | obj (tag : String)
  | vset (elems : List Int)
  deriving Repr, DecidableEq

/-- An environment: an association list from names to values.  Earlier
entries shadow later ones. -/
abbrev Env := List (Name × Value)

/-- Look up a name in an environment. -/
def Env.lookup (e : Env) (n : Name) : Option Value :=
  match e.find? (fun p => p.fst == n) with
  | some p => some p.snd
  | none => Option.none

/-- Whether an environment binds a name. -/
def Env.containsKey (e : Env) (n : Name) : Bool :=
  e.any (fun p => p.fst == n)

/-- Layer the bindings `ov` over `base`: every binding of `ov` wins over a
same-named binding of `base`. -/
def Env.withOverrides (base ov : Env) : Env :=
  ov ++ base.filter (fun p => !(Env.containsKey ov p.fst))

/-- Read an integer out of an environment (0 if absent or not an
integer; the cell bodies below only ever read names that are bound to
integers). -/
def Env.getInt (e : Env) (n : Name) : Int :=
  match Env.lookup e n with
  | some (Value.int k) => k
  | _ => 0

/-- A cell: one named code fragment together with its static-analysis
output.  `refs` are the free variables the fragment reads, `defs` the
names it may statically assign, `declaredParams` the literal parameter
list of the fragment as written, `is_coroutine` whether the fragment
itself contains a suspend point.  `body` is the shallow embedding of the
fragment: given the input environment it returns the trailing
bare-expression value (or `none` when the fragment has no trailing bare
expression) and the bindings it actually assigned during that run. -/
structure Cell where
  name : Name
  refs : List Name
  defs : List Name
  declaredParams : List Name
  is_coroutine : Bool
  body : Env → Option Value × Env

/-- Errors surfaced by the execution engine and the direct-call form.
`unexpectedArg` models the "unexpected argument" ValueError/TypeError,
`unresolvedName` the unresolved-name condition, `tooManyArgs` the
positional-arity error of the direct-call form. -/
inductive CallError where
  | unexpectedArg (k : Name)
  | unresolvedName (n : Name)
  | tooManyArgs
  deriving Repr, DecidableEq

/-- An app: the implicit setup scope plus the registered cells, in
registration order. -/
structure App where
  setup : Cell
  cells : List Cell

/-- Modelled from the spec: `producer_of(name)` returns the unique cell
(setup scope or a registered cell) whose defs contain `name`, or `none`
for an unresolved name. -/
def App.producerOf (app : App) (n : Name) : Option Cell :=
  (app.setup :: app.cells).find? (fun c => c.defs.contains n)

/-- Modelled from the spec: the cells reachable from `c` through the
producer relation (the transitive closure of producers of refs), as a
fuel-bounded unfolding.  Duplicates are harmless; the fuel
`app.cells.length + 1` saturates every acyclic graph. -/
def App.ancCells (app : App) : Nat → Cell → List Cell
  | 0, _ => []
  | fuel + 1, c =>
    (c.refs.filterMap app.producerOf).flatMap
      (fun p => p :: app.ancCells fuel p)

/-- Modelled from the spec: the registered cells belonging to the
ancestor closure of `c`, in registration order. -/
def App.neededCells (app : App) (c : Cell) : List Cell :=
  app.cells.filter
    (fun c2 => (app.ancCells (app.cells.length + 1) c).any
      (fun a => a.name == c2.name))

/-- Modelled from the spec: order the needed cells topologically, ties
broken by registration order — repeatedly emit the first remaining cell
all of whose refs' producers were already emitted (or are unresolved).
`done` holds the names of producers already emitted.  When it gets stuck
(a cycle) or runs out of fuel the remaining cells are emitted as-is. -/
def App.topoOrder (app : App) : Nat → List Cell → List Name → List Cell
  | 0, rem, _ => rem
  | fuel + 1, rem, done =>
    match rem.find? (fun c => c.refs.all (fun r =>
      match app.producerOf r with
      | some p => done.contains p.name
      | none => true)) with
    | some c =>
      c :: app.topoOrder fuel (rem.filter (fun c2 => !(c2.name == c.name)))
        (c.name :: done)
    | none => rem

/-- Modelled from the spec: `ancestors_of(cell)`, the chain of cells that
must execute to materialize `cell`'s refs, in topological order, always
starting from the setup scope. -/
def App.ancestorsOf (app : App) (c : Cell) : List Cell :=
  app.setup ::
    app.topoOrder (app.cells.length + 1) (app.neededCells c)
      [app.setup.name]

/-- Modelled from the spec and pinned by the tests: the first override
key that the engine rejects.  A key is accepted exactly when it is a ref
of the invoked cell or a def of the setup scope (the tests show that a
ref of a mere ancestor, such as `x` in the chain f → g → h, is
rejected). -/
def App.findUnexpected (app : App) (c : Cell) (ov : Env) : Option Name :=
  (ov.map Prod.fst).find?
    (fun k => !(c.refs.contains k || app.setup.defs.contains k))

/-- Modelled from the spec: the first ref of the invoked cell that has
neither a producer in the graph nor an override. -/
def App.findUnresolved (app : App) (c : Cell) (ov : Env) : Option Name :=
  c.refs.find?
    (fun r => (app.producerOf r).isNone && !(Env.containsKey ov r))

/-- Modelled from the spec, step 3 of the run algorithm: process one
ancestor.  If every def the ancestor contributes is already supplied via
overrides it is skipped; otherwise it executes with the accumulated
environment plus the overrides, and its realized defs are merged into the
accumulated environment except under names the overrides supply
(overrides always win). -/
def execStep (ov : Env) (acc : Env) (anc : Cell) : Env :=
  if anc.defs.all (fun d => Env.containsKey ov d) then acc
  else
    let ds := (anc.body (Env.withOverrides acc ov)).snd
    Env.withOverrides acc (ds.filter (fun p => !(Env.containsKey ov p.fst)))

/-- Modelled from the spec: the environment accumulated by running the
ancestor chain of `c` under the overrides `ov`. -/
def App.accumulate (app : App) (c : Cell) (ov : Env) : Env :=
  (app.ancestorsOf c).foldl (execStep ov) []

/-- Modelled from the spec, step 4: the input environment of the invoked
cell — the accumulated environment with overrides layered on top,
restricted to the cell's refs plus the setup scope's defs (setup defs are
visible to every cell without being declared as refs). -/
def App.inputEnv (app : App) (c : Cell) (ov : Env) : Env :=
  (Env.withOverrides (app.accumulate c ov) ov).filter
    (fun p => c.refs.contains p.fst || app.setup.defs.contains p.fst)

/-- Modelled from the spec: `run(cell, overrides)`.  Validate the
overrides (unexpected-argument first, then unresolved refs), run the
ancestor chain, then execute the cell's body on its input environment,
returning the trailing value and the realized defs. -/
def App.run (app : App) (c : Cell) (ov : Env) :
    Except CallError (Option Value × Env) :=
  match app.findUnexpected c ov with
  | some k => Except.error (CallError.unexpectedArg k)
  | none =>
    match app.findUnresolved c ov with
    | some r => Except.error (CallError.unresolvedName r)
    | none => Except.ok (c.body (app.inputEnv c ov))

/-- Modelled from the spec: the effective-coroutine flag, memoized
recursion over direct producers (fuel-bounded): a cell is effectively a
coroutine when its own fragment is a coroutine or some direct producer of
one of its refs is effectively a coroutine. -/
def App.effAux (app : App) : Nat → Cell → Bool
  | 0, c => c.is_coroutine
  | fuel + 1, c =>
    c.is_coroutine || (c.refs.filterMap app.producerOf).any (app.effAux fuel)

/-- Modelled from the spec: `is_effectively_coroutine(cell)`.  The setup
scope is an implicit ancestor of every cell, so its coroutine flag
contributes to every cell. -/
def App.isEffectivelyCoroutine (app : App) (c : Cell) : Bool :=
  app.effAux (app.cells.length + 1) c || app.setup.is_coroutine

/-- The outcome of invoking `run`: either a materialized result, or an
awaitable (a thunk) that yields the result when awaited. -/
inductive RunOutcome where
  | ready (r : Except CallError (Option Value × Env))
  | awaitable (th : Unit → Except CallError (Option Value × Env))

/-- Modelled from the spec: the engine surfaces an awaitable object
instead of a materialized result exactly when the invoked cell is
effectively a coroutine. -/
def App.runDispatch (app : App) (c : Cell) (ov : Env) : RunOutcome :=
  if app.isEffectivelyCoroutine c then
    RunOutcome.awaitable (fun _ => app.run c ov)
  else
    RunOutcome.ready (app.run c ov)

/-- Insert a name into an alphabetically sorted list of names. -/
def insertSorted (n : Name) : List Name → List Name
  | [] => [n]
  | m :: ms => if n ≤ m then n :: m :: ms else m :: insertSorted n ms

/-- Sort a list of names alphabetically. -/
def sortNames (l : List Name) : List Name :=
  l.foldr insertSorted []

/-- Modelled from the spec: the direct-call convenience form.  The
parameter list is the cell's refs in alphabetical order; passing more
positional arguments than refs is an arity error and a keyword that is
not a ref is an unexpected-argument error; otherwise the bound arguments
are passed to `run` as overrides, the defs map is discarded, and a
warning flag is reported exactly when the derived parameter list differs
from the fragment's literally declared parameters. -/
def App.directCall (app : App) (c : Cell) (pos : List Value) (kw : Env) :
    Except CallError (Bool × Option Value) :=
  let params := sortNames c.refs
  if params.length < pos.length then Except.error CallError.tooManyArgs
  else
    match (kw.map Prod.fst).find? (fun k => !(params.contains k)) with
    | some b => Except.error (CallError.unexpectedArg b)
    | none =>
      (app.run c (params.zip pos ++ kw)).map
        (fun r => ((params != c.declaredParams), r.fst))

/-- A setup scope that defines nothing (the default for an `App()` with
no setup block). -/
def emptySetup : Cell :=
  { name := "_setup", refs := [], defs := [], declaredParams := [],
    is_coroutine := false, body := fun _ => (Option.none, []) }

/-- From `test_cell_basic`: cell `f` defining `x = 2 + 2` with trailing
bare expression `"output"`. -/
def outCell : Cell :=
  { name := "f", refs := [], defs := ["x"], declaredParams := [],
    is_coroutine := false,
    body := fun _ => (some (Value.str ("output")), [("x", Value.int (2 + 2))]) }

/-- App holding only `outCell`. -/
def outApp : App := { setup := emptySetup, cells := [outCell] }

/-- From `test_substituted_ref_chain`: cell `f` defining `x = 0`. -/
def fCell : Cell :=
  { name := "f", refs := [], defs := ["x"], declaredParams := [],
    is_coroutine := false,
    body := fun _ => (Option.none, [("x", Value.int 0)]) }

/-- From `test_substituted_ref_chain`: cell `g(x)` defining `y = x + 1`. -/
def gCell : Cell :=
  { name := "g", refs := ["x"], defs := ["y"], declaredParams := ["x"],
    is_coroutine := false,
    body := fun e => (Option.none, [("y", Value.int (Env.getInt e ("x") + 1))]) }

/-- From `test_substituted_ref_chain`: cell `h(y)` defining `z = 2 * y`. -/
def hCell : Cell :=
  { name := "h", refs := ["y"], defs := ["z"], declaredParams := ["y"],
    is_coroutine := false,
    body := fun e => (Option.none, [("z", Value.int (2 * Env.getInt e ("y")))]) }

/-- The three-cell chain app f → g → h of `test_substituted_ref_chain`. -/
def chainApp : App := { setup := emptySetup, cells := [fCell, gCell, hCell] }

/-- From `test_substituted_ref_basic`: cell `g` defining `x = 0` and
`y = 1`. -/
def gBasic : Cell :=
  { name := "g", refs := [], defs := ["x", "y"], declaredParams := [],
    is_coroutine := false,
    body := fun _ => (Option.none, [("x", Value.int 0), ("y", Value.int 1)]) }

/-- From `test_substituted_ref_basic`: cell `h(x, y)` defining
`z = x + y`. -/
def hBasic : Cell :=
  { name := "h", refs := ["x", "y"], defs := ["z"],
    declaredParams := ["x", "y"], is_coroutine := false,
    body := fun e =>
      (Option.none,
        [("z", Value.int (Env.getInt e ("x") + Env.getInt e ("y")))]) }

/-- The two-cell app of `test_substituted_ref_basic`. -/
def basicPairApp : App := { setup := emptySetup, cells := [gBasic, hBasic] }

/-- From `test_run_ok_with_setup_dep`: the setup scope defining `z = 1`. -/
def setupZ : Cell :=
  { name := "setup", refs := [], defs := ["z"], declaredParams := [],
    is_coroutine := false,
    body := fun _ => (Option.none, [("z", Value.int 1)]) }

/-- From `test_run_ok_with_setup_dep`: the anonymous cell defining
`y = 1`. -/
def anonY : Cell :=
  { name := "_", refs := [], defs := ["y"], declaredParams := [],
    is_coroutine := false,
    body := fun _ => (Option.none, [("y", Value.int 1)]) }

/-- From `test_run_ok_with_setup_dep`: cell `uses_setup(y)` computing
`x = y - z` (with `z` from the setup scope) and ending with the trailing
bare expression `x`. -/
def usesSetupCell : Cell :=
  { name := "uses_setup", refs := ["y"], defs := ["x"],
    declaredParams := ["y"], is_coroutine := false,
    body := fun e =>
      (some (Value.int (Env.getInt e ("y") - Env.getInt e ("z"))),
        [("x", Value.int (Env.getInt e ("y") - Env.getInt e ("z")))]) }

/-- The app of `test_run_ok_with_setup_dep`. -/
def setupApp : App := { setup := setupZ, cells := [anonY, usesSetupCell] }

/-- From `test_conditional_def`: cell `f` whose body is
`if False: x = 0` — `x` is a static def but is never assigned at run
time. -/
def condCell : Cell :=
  { name := "f", refs := [], defs := ["x"], declaredParams := [],
    is_coroutine := false,
    body := fun _ =>
      (Option.none, if false then [("x", Value.int 0)] else []) }

/-- App holding only `condCell`. -/
def condApp : App := { setup := emptySetup, cells := [condCell] }

/-- From `test_unknown_ref_raises`: a cell with no refs and no defs. -/
def emptyCell : Cell :=
  { name := "f", refs := [], defs := [], declaredParams := [],
    is_coroutine := false, body := fun _ => (Option.none, []) }

/-- App holding only `emptyCell`. -/
def emptyApp : App := { setup := emptySetup, cells := [emptyCell] }

/-- From `test_async_chain`: async cell `f(arg)` awaiting `arg` and
defining `x = 0`. -/
def fAsync : Cell :=
  { name := "f", refs := ["arg"], defs := ["x"], declaredParams := ["arg"],
    is_coroutine := true,
    body := fun _ => (Option.none, [("x", Value.int 0)]) }

/-- From `test_async_chain`: cell `g(x)` defining `y = x`. -/
def gAsync : Cell :=
  { name := "g", refs := ["x"], defs := ["y"], declaredParams := ["x"],
    is_coroutine := false,
    body := fun e => (Option.none, [("y", Value.int (Env.getInt e ("x")))]) }

/-- From `test_async_chain`: cell `h(y)` defining `z = y`, itself with no
suspend point. -/
def hAsync : Cell :=
  { name := "h", refs := ["y"], defs := ["z"], declaredParams := ["y"],
    is_coroutine := false,
    body := fun e => (Option.none, [("z", Value.int (Env.getInt e ("y")))]) }

/-- The app of `test_async_chain`. -/
def asyncChainApp : App :=
  { setup := emptySetup, cells := [fAsync, gAsync, hAsync] }

/-- From `cell_data/named_cells` as exercised by `test_import`: cell `f`
defining `x = 0`. -/
def fNamed : Cell :=
  { name := "f", refs := [], defs := ["x"], declaredParams := [],
    is_coroutine := false,
    body := fun _ => (Option.none, [("x", Value.int 0)]) }

/-- From `cell_data/named_cells`: cell `g(x)` defining `y = x + 1`. -/
def gNamed : Cell :=
  { name := "g", refs := ["x"], defs := ["y"], declaredParams := ["x"],
    is_coroutine := false,
    body := fun e => (Option.none, [("y", Value.int (Env.getInt e ("x") + 1))]) }

/-- From `cell_data/named_cells`: cell `h(y)` defining `z = y + 1` with
trailing bare expression `z`. -/
def hNamed : Cell :=
  { name := "h", refs := ["y"], defs := ["z"], declaredParams := ["y"],
    is_coroutine := false,
    body := fun e =>
      (some (Value.int (Env.getInt e ("y") + 1)),
        [("z", Value.int (Env.getInt e ("y") + 1))]) }

/-- From `cell_data/named_cells` as exercised by
`test_unhashable_import`: a cell defining the unhashable value
`unhashable = {0, 1, 2}` and ending with the trailing bare expression
`unhashable`. -/
def unhashableDefined : Cell :=
  { name := "unhashable_defined", refs := [], defs := ["unhashable"],
    declaredParams := [], is_coroutine := false,
    body := fun _ =>
      (some (Value.vset [0, 1, 2]), [("unhashable", Value.vset [0, 1, 2])]) }

/-- From `cell_data/named_cells`: a cell whose trailing bare expression
is its ref `unhashable` and which defines nothing. -/
def unhashableRequired : Cell :=
  { name := "unhashable_override_required", refs := ["unhashable"],
    defs := [], declaredParams := ["unhashable"], is_coroutine := false,
    body := fun e => (Env.lookup e ("unhashable"), []) }

/-- The app modelling `cell_data/named_cells`. -/
def namedApp : App :=
  { setup := emptySetup,
    cells := [fNamed, gNamed, hNamed, unhashableDefined, unhashableRequired] }

/-- From `test_mismatch_args`: cell `basic(lots, of_, incorrect, args)`
whose body is the single bare expression `1` — its refs are empty and do
not match its literally declared parameters. -/
def basicCell : Cell :=
  { name := "basic", refs := [], defs := [],
    declaredParams := ["lots", "of_", "incorrect", "args"],
    is_coroutine := false,
    body := fun _ => (some (Value.int 1), []) }

/-- App holding only `basicCell`. -/
def basicApp : App := { setup := emptySetup, cells := [basicCell] }

/-- If a list has a member satisfying `p`, then `find?` returns some
result. -/
theorem find_eq_some_of_mem {α : Type} {p : α → Bool} :
    ∀ {l : List α} {x : α}, x ∈ l → p x = true → ∃ b, l.find? p = some b
  | [], x, hx, _ => absurd hx (List.not_mem_nil x)
  | a :: l, x, hx, hpx => by
    by_cases ha : p a = true
    · exact ⟨a, List.find?_cons_of_pos l ha⟩
    · have hxl : x ∈ l := by
        cases List.mem_cons.mp hx with
        | inl h => exact absurd (h ▸ hpx) ha
        | inr h => exact h
      obtain ⟨b, hb⟩ := find_eq_some_of_mem hxl hpx
      exact ⟨b, by rw [List.find?_cons_of_neg l ha, hb]⟩

/-- Every cell reached through the producer relation is the setup scope
or a registered cell. -/
theorem mem_of_mem_ancCells (app : App) :
    ∀ (fuel : Nat) (c a : Cell),
      a ∈ app.ancCells fuel c → a ∈ app.setup :: app.cells := by
  intro fuel
  induction fuel with
  | zero => intro c a ha; simp [App.ancCells] at ha
  | succ fuel ih =>
    intro c a ha
    simp only [App.ancCells, List.mem_flatMap] at ha
    obtain ⟨p, hp, hap⟩ := ha
    have hpmem : p ∈ app.setup :: app.cells := by
      obtain ⟨r, _, hpr⟩ := List.mem_filterMap.mp hp
      exact List.mem_of_find?_eq_some hpr
    cases List.mem_cons.mp hap with
    | inl h => exact h ▸ hpmem
    | inr h => exact ih p a h

/-- The fuel-bounded coroutine recursion is equivalent to scanning the
fuel-bounded producer closure for a coroutine cell. -/
theorem effAux_iff (app : App) :
    ∀ (fuel : Nat) (c : Cell),
      app.effAux fuel c = true ↔
        c.is_coroutine = true ∨
          ∃ a ∈ app.ancCells fuel c, a.is_coroutine = true := by
  intro fuel
  induction fuel with
  | zero => intro c; simp [App.effAux, App.ancCells]
  | succ fuel ih =>
    intro c
    simp only [App.effAux, App.ancCells, Bool.or_eq_true, List.any_eq_true,
      List.mem_flatMap, List.mem_cons]
    constructor
    · rintro (h | ⟨p, hp, hep⟩)
      · exact Or.inl h
      · rcases (ih p).mp hep with h | ⟨a, ha, hco⟩
        · exact Or.inr ⟨p, ⟨p, hp, Or.inl rfl⟩, h⟩
        · exact Or.inr ⟨a, ⟨p, hp, Or.inr ha⟩, hco⟩
    · rintro (h | ⟨a, ⟨p, hp, ha⟩, hco⟩)
      · exact Or.inl h
      · cases ha with
        | inl he => exact Or.inr ⟨p, hp, (ih p).mpr (Or.inl (he ▸ hco))⟩
        | inr ha => exact Or.inr ⟨p, hp, (ih p).mpr (Or.inr ⟨a, ha, hco⟩)⟩

/-- Topological reordering neither adds nor drops cells, provided the
remaining cells have pairwise distinct names. -/
theorem mem_topoOrder (app : App) :
    ∀ (fuel : Nat) (rem : List Cell) (done : List Name),
      (rem.map Cell.name).Nodup →
      ∀ x, x ∈ app.topoOrder fuel rem done ↔ x ∈ rem := by
  intro fuel
  induction fuel with
  | zero => intro rem done _ x; simp [App.topoOrder]
  | succ fuel ih =>
    intro rem done hnd x
    simp only [App.topoOrder]
    split
    · next c heq =>
      have hcmem : c ∈ rem := List.mem_of_find?_eq_some heq
      have hnds :
          ((rem.filter (fun c2 => !(c2.name == c.name))).map Cell.name).Nodup :=
        List.Nodup.sublist ((List.filter_sublist rem).map Cell.name) hnd
      constructor
      · intro hx
        cases List.mem_cons.mp hx with
        | inl h => exact h ▸ hcmem
        | inr h =>
          have := (ih _ _ hnds x).mp h
          exact (List.filter_sublist rem).mem this
      · intro hx
        by_cases hname : x.name = c.name
        · have : x = c := List.inj_on_of_nodup_map hnd hx hcmem hname
          exact this ▸ List.mem_cons_self x _
        · refine List.mem_cons.mpr (Or.inr ?_)
          refine (ih _ _ hnds x).mpr ?_
          exact List.mem_filter.mpr ⟨hx, by simp [hname]⟩
    · next heq => exact Iff.rfl

/-- The effective-coroutine flag computed by memoized recursion over
direct producers agrees with scanning the full ancestor chain for a
coroutine cell, for any app whose cell names are pairwise distinct. -/
theorem isEffectivelyCoroutine_iff (app : App) (c : Cell)
    (hnd : ((app.setup :: app.cells).map Cell.name).Nodup) :
    app.isEffectivelyCoroutine c = true ↔
      c.is_coroutine = true ∨
        ∃ a ∈ app.ancestorsOf c, a.is_coroutine = true := by
  have hcellsnd : (app.cells.map Cell.name).Nodup := (List.nodup_cons.mp hnd).2
  have hneednd : ((app.neededCells c).map Cell.name).Nodup :=
    List.Nodup.sublist ((List.filter_sublist app.cells).map Cell.name) hcellsnd
  have htopo := mem_topoOrder app (app.cells.length + 1) (app.neededCells c)
    [app.setup.name] hneednd
  have hsplit : app.isEffectivelyCoroutine c = true ↔
      app.effAux (app.cells.length + 1) c = true ∨
        app.setup.is_coroutine = true := by
    simp [App.isEffectivelyCoroutine]
  constructor
  · intro h
    rcases hsplit.mp h with he | hs
    · rcases (effAux_iff app (app.cells.length + 1) c).mp he with hc | ⟨a, ha, hco⟩
      · exact Or.inl hc
      · have hmem : a ∈ app.setup :: app.cells :=
          mem_of_mem_ancCells app _ c a ha
        cases List.mem_cons.mp hmem with
        | inl hset =>
          refine Or.inr ⟨app.setup, List.mem_cons_self _ _, ?_⟩
          exact hset ▸ hco
        | inr hcells =>
          refine Or.inr ⟨a, ?_, hco⟩
          refine List.mem_cons.mpr (Or.inr ?_)
          refine (htopo a).mpr ?_
          refine List.mem_filter.mpr ⟨hcells, ?_⟩
          exact List.any_eq_true.mpr ⟨a, ha, by simp⟩
    · exact Or.inr ⟨app.setup, List.mem_cons_self _ _, hs⟩
  · intro h
    rcases h with hc | ⟨a, ha, hco⟩
    · refine hsplit.mpr (Or.inl ?_)
      exact (effAux_iff app (app.cells.length + 1) c).mpr (Or.inl hc)
    · cases List.mem_cons.mp ha with
      | inl hset => exact hsplit.mpr (Or.inr (hset ▸ hco))
      | inr htl =>
        have hneed : a ∈ app.neededCells c := (htopo a).mp htl
        obtain ⟨hacells, hpred⟩ := List.mem_filter.mp hneed
        obtain ⟨b, hb, hbeq⟩ := List.any_eq_true.mp hpred
        have hbname : b.name = a.name := by simpa using hbeq
        have hbmem : b ∈ app.setup :: app.cells :=
          mem_of_mem_ancCells app _ c b hb
        have hba : b = a :=
          List.inj_on_of_nodup_map hnd hbmem
            (List.mem_cons.mpr (Or.inr hacells)) hbname
        refine hsplit.mpr (Or.inl ?_)
        refine (effAux_iff app (app.cells.length + 1) c).mpr ?_
        exact Or.inr ⟨b, hb, hba ▸ hco⟩

/-- When validation finds an unexpected override key, `run` reports it. -/
theorem run_eq_error_of_findUnexpected (app : App) (c : Cell) (ov : Env)
    (k : Name) (h : app.findUnexpected c ov = some k) :
    app.run c ov = Except.error (CallError.unexpectedArg k) := by
  simp [App.run, h]

/-- When validation accepts every override key, `run` never reports an
unexpected argument. -/
theorem run_ne_unexpected_of_findUnexpected_none (app : App) (c : Cell)
    (ov : Env) (h : app.findUnexpected c ov = none) :
    ∀ b, app.run c ov ≠ Except.error (CallError.unexpectedArg b) := by
  intro b
  simp only [App.run, h]
  cases hr : app.findUnresolved c ov with
  | some r => simp
  | none => simp

/-- A successful `run` returns exactly what the cell's body produced on
the engine-constructed input environment: the engine inserts no
placeholder bindings of its own. -/
theorem run_ok_eq_body (app : App) (c : Cell) (ov : Env)
    (out : Option Value) (m : Env)
    (h : app.run c ov = Except.ok (out, m)) :
    (out, m) = c.body (app.inputEnv c ov) := by
  simp only [App.run] at h
  split at h
  · exact absurd h (by simp)
  · split at h
    · exact absurd h (by simp)
    · exact ((Except.ok.injEq _ _).mp h).symm

/-- C1: For the three-cell chain f (x = 0) → g(x) (y = x + 1) → h(y)
(z = 2 * y): `run(h)` with no overrides returns `(None, {"z": 2})`;
`run(h)` with override y = 0 returns `(None, {"z": 0})`; and `run(h)`
with override x = 1 raises the unexpected-argument error. -/
theorem C1_substituted_ref_chain :
    chainApp.run hCell [] = Except.ok (Option.none, [("z", Value.int 2)])
    ∧ chainApp.run hCell [("y", Value.int 0)] =
        Except.ok (Option.none, [("z", Value.int 0)])
    ∧ chainApp.run hCell [("x", Value.int 1)] =
        Except.error (CallError.unexpectedArg ("x")) :=
  ⟨rfl, rfl, rfl⟩

/-- C2 counterexample: in the chain f → g → h, the key `x` is a ref of
the ancestor g and a def of the ancestor f — both cells sit in h's
ancestor chain — yet `run(h, {x: 1})` is rejected with the
unexpected-argument error, so being a ref of an ancestor or a def
produced in the chain does not make an override key acceptable. -/
theorem C2_counterexample :
    ("g" ∈ (chainApp.ancestorsOf hCell).map Cell.name
      ∧ "x" ∈ gCell.refs
      ∧ "f" ∈ (chainApp.ancestorsOf hCell).map Cell.name
      ∧ "x" ∈ fCell.defs)
    ∧ chainApp.run hCell [("x", Value.int 1)] =
        Except.error (CallError.unexpectedArg ("x")) :=
  ⟨by decide, rfl⟩

/-- The validation predicate rejects no accepted key. -/
theorem acceptPred_eq_false (refs sdefs : List Name) (k : Name)
    (h : k ∈ refs ∨ k ∈ sdefs) :
    (!(refs.contains k || sdefs.contains k)) = false := by
  simp only [Bool.not_eq_false', Bool.or_eq_true, List.elem_iff]
  exact h

/-- The validation predicate holds of a key outside both accepted
sets. -/
theorem acceptPred_eq_true (refs sdefs : List Name) (k : Name)
    (h1 : ¬ k ∈ refs) (h2 : ¬ k ∈ sdefs) :
    (!(refs.contains k || sdefs.contains k)) = true := by
  simp [List.elem_iff, h1, h2]

/-- C2 (amended): for every cell and overrides mapping, the overrides
pass validation — `run` does not raise the unexpected-argument error —
exactly when every override key is a ref of the invoked cell itself or a
def of the setup scope; a key outside those two sets (even a ref of a
proper ancestor or a def produced by a non-setup ancestor) is an
unexpected-argument error. -/
theorem C2_override_acceptance (app : App) (c : Cell) (ov : Env) :
    (∀ k ∈ ov.map Prod.fst, k ∈ c.refs ∨ k ∈ app.setup.defs) ↔
      ∀ b, app.run c ov ≠ Except.error (CallError.unexpectedArg b) := by
  constructor
  · intro hall b
    have hnone : app.findUnexpected c ov = none := by
      refine List.find?_eq_none.mpr ?_
      intro k hk
      rw [acceptPred_eq_false c.refs app.setup.defs k (hall k hk)]
      simp
    exact run_ne_unexpected_of_findUnexpected_none app c ov hnone b
  · intro hne k hk
    by_contra hcon
    push_neg at hcon
    obtain ⟨b, hb⟩ :=
      @find_eq_some_of_mem Name
        (fun k => !(c.refs.contains k || app.setup.defs.contains k))
        (ov.map Prod.fst) k hk
        (acceptPred_eq_true c.refs app.setup.defs k hcon.1 hcon.2)
    exact hne b (run_eq_error_of_findUnexpected app c ov b hb)

/-- Looking up a key bound in `ov` ignores whatever follows `ov` in the
environment. -/
theorem lookup_append_of_containsKey :
    ∀ (ov rest : Env) (k : Name), Env.containsKey ov k = true →
      Env.lookup (ov ++ rest) k = Env.lookup ov k
  | [], _, k, hck => by simp [Env.containsKey] at hck
  | p :: ov, rest, k, hck => by
    cases hp : (p.fst == k) with
    | true => simp [Env.lookup, List.cons_append, List.find?_cons, hp]
    | false =>
      have hck2 : Env.containsKey ov k = true := by
        simpa [Env.containsKey, hp] using hck
      have ih := lookup_append_of_containsKey ov rest k hck2
      simp only [Env.lookup, List.cons_append, List.find?_cons, hp] at ih ⊢
      exact ih

/-- Overridden bindings always win: for a key the overrides supply, the
layered environment answers with the override's value. -/
theorem lookup_withOverrides (base ov : Env) (k : Name)
    (h : Env.containsKey ov k = true) :
    Env.lookup (Env.withOverrides base ov) k = Env.lookup ov k :=
  lookup_append_of_containsKey ov _ k h

/-- C3: for cell g defining x = 0 and y = 1 and cell h(x, y) computing
z = x + y: `run(h)` returns `(None, {"z": 1})`, `run(h, {x: 1})` returns
`(None, {"z": 2})`, `run(h, {x: 1, y: 2})` returns `(None, {"z": 3})`;
and in general caller-supplied overrides take precedence over the
accumulated producer values for every overlapping name. -/
theorem C3_overrides_take_precedence :
    (basicPairApp.run hBasic [] =
        Except.ok (Option.none, [("z", Value.int 1)])
      ∧ basicPairApp.run hBasic [("x", Value.int 1)] =
          Except.ok (Option.none, [("z", Value.int 2)])
      ∧ basicPairApp.run hBasic [("x", Value.int 1), ("y", Value.int 2)] =
          Except.ok (Option.none, [("z", Value.int 3)]))
    ∧ ∀ (base ov : Env) (k : Name), Env.containsKey ov k = true →
        Env.lookup (Env.withOverrides base ov) k = Env.lookup ov k :=
  ⟨⟨rfl, rfl, rfl⟩, lookup_withOverrides⟩

/-- C3 witness: the precedence clause of `C3_overrides_take_precedence`
instantiated at a concrete overlap — overriding x = 1 over a base binding
x = 0 answers with the override. -/
theorem C3_witness :
    Env.lookup
        (Env.withOverrides [("x", Value.int 0)] [("x", Value.int 1)]) "x" =
      Env.lookup [("x", Value.int 1)] "x" :=
  C3_overrides_take_precedence.2 [("x", Value.int 0)] [("x", Value.int 1)]
    "x" (by decide)

/-- C4: a cell is effectively a coroutine exactly when its own fragment
is a coroutine or some cell in its transitive ancestor chain is; and
invoking `run` on an effectively-coroutine cell surfaces an awaitable
object, which yields the `(trailing_value, defs_map)` pair of the
execution when awaited. -/
theorem C4_effectively_coroutine (app : App) (c : Cell) (ov : Env)
    (hnd : ((app.setup :: app.cells).map Cell.name).Nodup) :
    (app.isEffectivelyCoroutine c = true ↔
      c.is_coroutine = true ∨
        ∃ a ∈ app.ancestorsOf c, a.is_coroutine = true)
    ∧ (app.isEffectivelyCoroutine c = true →
        ∃ th, app.runDispatch c ov = RunOutcome.awaitable th
          ∧ th () = app.run c ov) := by
  refine ⟨isEffectivelyCoroutine_iff app c hnd, ?_⟩
  intro h
  refine ⟨fun _ => app.run c ov, ?_, rfl⟩
  simp [App.runDispatch, h]

/-- C4 witness: in the async chain f (async) → g → h of
`test_async_chain`, the cell h — itself with no suspend point — is
effectively a coroutine, and running it yields an awaitable whose forcing
produces the execution result. -/
theorem C4_witness :
    (asyncChainApp.isEffectivelyCoroutine hAsync = true ↔
      hAsync.is_coroutine = true ∨
        ∃ a ∈ asyncChainApp.ancestorsOf hAsync, a.is_coroutine = true)
    ∧ (asyncChainApp.isEffectivelyCoroutine hAsync = true →
        ∃ th, asyncChainApp.runDispatch hAsync [] = RunOutcome.awaitable th
          ∧ th () = asyncChainApp.run hAsync []) :=
  C4_effectively_coroutine asyncChainApp hAsync [] (by decide)

/-- C5 counterexample: in the setup-scope scenario of
`test_run_ok_with_setup_dep`, the cell `uses_setup` ends with the
trailing bare expression `x`, so `run(uses_setup)` returns trailing value
0 — not the null sentinel the claim states. -/
theorem C5_counterexample :
    setupApp.run usesSetupCell [] =
        Except.ok (some (Value.int 0), [("x", Value.int 0)])
    ∧ setupApp.run usesSetupCell [] ≠
        Except.ok (Option.none, [("x", Value.int 0)]) := by
  refine ⟨rfl, ?_⟩
  have heq : setupApp.run usesSetupCell [] =
      Except.ok (some (Value.int 0), [("x", Value.int 0)]) := rfl
  rw [heq]
  simp

/-- C5 (amended): defs of the setup scope are visible to every cell
without appearing in any cell's refs and may be overridden in `run`: with
setup defining z = 1, a cell defining y = 1, and uses_setup(y) computing
x = y - z with trailing bare expression x, `run(uses_setup)` returns
`(0, {"x": 0})` and `run(uses_setup, {z: 2})` returns
`(-1, {"x": -1})`. -/
theorem C5_setup_scope_defs :
    ("z" ∈ setupApp.setup.defs
      ∧ ¬ "z" ∈ usesSetupCell.refs ∧ ¬ "z" ∈ anonY.refs)
    ∧ setupApp.run usesSetupCell [] =
        Except.ok (some (Value.int 0), [("x", Value.int 0)])
    ∧ setupApp.run usesSetupCell [("z", Value.int 2)] =
        Except.ok (some (Value.int (-1)), [("x", Value.int (-1))]) :=
  ⟨by decide, rfl, rfl⟩

/-- C6: the name x assigned only on the unreached branch
`if False: x = 0` is a member of the cell's static defs, yet the
execution's defs map has no entry for it at all (no null placeholder);
and in general a successful `run` returns exactly the bindings the body
realized — the engine adds no placeholder entries. -/
theorem C6_dead_branch_def :
    (condCell.defs = ["x"]
      ∧ condApp.run condCell [] = Except.ok (Option.none, []))
    ∧ ∀ (app : App) (c : Cell) (ov : Env) (out : Option Value) (m : Env),
        app.run c ov = Except.ok (out, m) →
          (out, m) = c.body (app.inputEnv c ov) :=
  ⟨⟨rfl, rfl⟩, run_ok_eq_body⟩

/-- C6 witness: the generic clause of `C6_dead_branch_def` instantiated
at the dead-branch cell — the empty defs map is exactly what the body
produced. -/
theorem C6_witness :
    ((Option.none : Option Value), ([] : Env)) =
      condCell.body (condApp.inputEnv condCell []) :=
  C6_dead_branch_def.2 condApp condCell [] Option.none [] rfl

/-- C7: calling `run` with an override key that is neither a ref of the
invoked cell nor a name (ref or def) anywhere in its ancestor chain
raises the unexpected-argument error naming an offending key, regardless
of the override's value; the statement holds for every app and every cell
body, so no ancestor execution is involved in producing the error. -/
theorem C7_unknown_override_raises (app : App) (c : Cell) (ov : Env)
    (k : Name) (v : Value) (hk : (k, v) ∈ ov)
    (href : ¬ k ∈ c.refs)
    (hchain : ∀ a ∈ app.ancestorsOf c, ¬ k ∈ a.refs ∧ ¬ k ∈ a.defs) :
    ∃ b, (∃ w, (b, w) ∈ ov) ∧ ¬ b ∈ c.refs ∧ ¬ b ∈ app.setup.defs
      ∧ app.run c ov = Except.error (CallError.unexpectedArg b) := by
  have hsetupmem : app.setup ∈ app.ancestorsOf c := by
    simp [App.ancestorsOf]
  have hsetup : ¬ k ∈ app.setup.defs := (hchain app.setup hsetupmem).2
  have hkmem : k ∈ ov.map Prod.fst :=
    List.mem_map.mpr ⟨(k, v), hk, rfl⟩
  obtain ⟨b, hb⟩ :=
    @find_eq_some_of_mem Name
      (fun k => !(c.refs.contains k || app.setup.defs.contains k))
      (ov.map Prod.fst) k hkmem
      (acceptPred_eq_true c.refs app.setup.defs k href hsetup)
  have hbprops := List.find?_some hb
  have hbmem := List.mem_of_find?_eq_some hb
  obtain ⟨pw, hpw, hpwb⟩ := List.mem_map.mp hbmem
  have hbrefs : ¬ b ∈ c.refs ∧ ¬ b ∈ app.setup.defs := by
    have := hbprops
    simp only [Bool.not_eq_true', Bool.or_eq_false_iff, List.elem_iff] at this
    -- `this` now states the two non-membership facts in Bool form
    constructor
    · intro hmem
      have := this.1
      simp [List.elem_iff.mpr hmem] at this
      exact this hmem
    · intro hmem
      have := this.2
      simp [List.elem_iff.mpr hmem] at this
      exact this hmem
  refine ⟨b, ⟨pw.snd, ?_⟩, hbrefs.1, hbrefs.2, ?_⟩
  · have : pw = (b, pw.snd) := by
      rw [← hpwb]
    exact this ▸ hpw
  · exact run_eq_error_of_findUnexpected app c ov b hb

/-- C7 witness: `run` on the ref-less, def-less cell of
`test_unknown_ref_raises` with the override foo = 1 reports the
unexpected argument. -/
theorem C7_witness :
    ∃ b, (∃ w, (b, w) ∈ ([("foo", Value.int 1)] : Env))
      ∧ ¬ b ∈ emptyCell.refs ∧ ¬ b ∈ emptyApp.setup.defs
      ∧ emptyApp.run emptyCell [("foo", Value.int 1)] =
          Except.error (CallError.unexpectedArg b) :=
  C7_unknown_override_raises emptyApp emptyCell [("foo", Value.int 1)]
    "foo" (Value.int 1) (by decide) (by decide) (by decide)

/-- C8: the cell f with no refs assigning x = 2 + 2 and ending with the
trailing bare expression "output" runs, with no overrides, to exactly
`("output", {"x": 4})`. -/
theorem C8_trailing_expression :
    outCell.refs = []
    ∧ outApp.run outCell [] =
        Except.ok (some (Value.str ("output")), [("x", Value.int 4)]) :=
  ⟨rfl, rfl⟩

/-- C9: the direct-call form binds the cell's refs, alphabetically
sorted, as its parameter list and returns only the trailing value:
(i) more positional arguments than refs is an arity error; (ii) a keyword
not among the parameters is an unexpected-argument error; (iii) otherwise
the bound arguments become overrides for `run`, the defs map is
discarded, and a non-fatal warning flag is set exactly when the derived
parameter list differs from the fragment's literally declared parameters;
(iv) calling h of `cell_data/named_cells` with the positional argument 1
returns 2; (v) calling the parameter-mismatched cell of
`test_mismatch_args` sets the warning flag and still returns its trailing
value 1. -/
theorem C9_direct_call :
    (∀ (app : App) (c : Cell) (pos : List Value) (kw : Env),
        (sortNames c.refs).length < pos.length →
          app.directCall c pos kw = Except.error CallError.tooManyArgs)
    ∧ (∀ (app : App) (c : Cell) (pos : List Value) (kw : Env) (k : Name),
        ¬ (sortNames c.refs).length < pos.length →
          k ∈ kw.map Prod.fst → ¬ k ∈ sortNames c.refs →
            ∃ b, ¬ b ∈ sortNames c.refs
              ∧ app.directCall c pos kw =
                  Except.error (CallError.unexpectedArg b))
    ∧ (∀ (app : App) (c : Cell) (pos : List Value) (kw : Env),
        ¬ (sortNames c.refs).length < pos.length →
          (∀ k ∈ kw.map Prod.fst, k ∈ sortNames c.refs) →
            app.directCall c pos kw =
              (app.run c ((sortNames c.refs).zip pos ++ kw)).map
                (fun r => ((sortNames c.refs != c.declaredParams), r.fst)))
    ∧ namedApp.directCall hNamed [Value.int 1] [] =
        Except.ok (false, some (Value.int 2))
    ∧ basicApp.directCall basicCell [] [] =
        Except.ok (true, some (Value.int 1)) := by
  refine ⟨?_, ?_, ?_, rfl, rfl⟩
  · intro app c pos kw hlt
    simp [App.directCall, hlt]
  · intro app c pos kw k hnlt hk hknotin
    obtain ⟨b, hb⟩ :=
      @find_eq_some_of_mem Name
        (fun k => !((sortNames c.refs).contains k))
        (kw.map Prod.fst) k hk
        (by simp [List.elem_iff, hknotin])
    have hbpred := List.find?_some hb
    refine ⟨b, ?_, ?_⟩
    · intro hmem
      simp [List.elem_iff.mpr hmem] at hbpred
      exact hbpred hmem
    · simp only [App.directCall]
      rw [if_neg hnlt, hb]
  · intro app c pos kw hnlt hall
    have hnone : (kw.map Prod.fst).find?
        (fun k => !((sortNames c.refs).contains k)) = none := by
      refine List.find?_eq_none.mpr ?_
      intro k hk
      simp [List.elem_iff, hall k hk]
    simp only [App.directCall]
    rw [if_neg hnlt, hnone]

/-- C9 witness: the arity clause of `C9_direct_call` instantiated —
calling h of `cell_data/named_cells` (one ref) with two positional
arguments is the arity error, as in
`test_direct_call_with_global`. -/
theorem C9_witness :
    namedApp.directCall hNamed [Value.int 1, Value.int 2] [] =
      Except.error CallError.tooManyArgs :=
  C9_direct_call.1 namedApp hNamed [Value.int 1, Value.int 2] []
    (by decide)

/-- C10: unhashable values (Python sets) flow through the engine
unchanged: the cell defining `unhashable = {0, 1, 2}` runs to trailing
value {0, 1, 2} and defs map `{"unhashable": {0, 1, 2}}` and direct-calls
to {0, 1, 2}; an override binding `unhashable` to the set {0, 1} is
passed through intact; and in fact any value whatsoever supplied for
`unhashable` is returned unchanged. -/
theorem C10_unhashable_values :
    namedApp.run unhashableDefined [] =
        Except.ok (some (Value.vset [0, 1, 2]),
          [("unhashable", Value.vset [0, 1, 2])])
    ∧ namedApp.directCall unhashableDefined [] [] =
        Except.ok (false, some (Value.vset [0, 1, 2]))
    ∧ namedApp.run unhashableRequired [("unhashable", Value.vset [0, 1])] =
        Except.ok (some (Value.vset [0, 1]), [])
    ∧ ∀ (v : Value),
        namedApp.run unhashableRequired [("unhashable", v)] =
          Except.ok (some v, []) :=
  ⟨rfl, rfl, rfl, fun _ => rfl⟩
